/-
Verification of the network-router rule store, strategies, session
manager dispatch, UDP forwarding loop and the JSON wire format of
rules, as a shallow embedding of the Rust sources
(src/session/rules.rs, src/rest/handlers.rs, src/session/strategy.rs,
src/session/mod.rs, src/protocol/udp.rs, src/config.rs).
-/
import Mathlib

namespace Router

/-! ## Data model (src/session/rules.rs)

`SockAddr` models `std::net::SocketAddr` in the IPv4 form
`a.b.c.d:port`, the only form the repository constructs and tests.
Octets are bytes and the port is a 16-bit integer, as in `SocketAddrV4`. -/

structure SockAddr where
  a : Fin 256
  b : Fin 256
  c : Fin 256
  d : Fin 256
  port : Fin 65536
deriving DecidableEq, Repr

/-- `enum Protocol { Udp, Tcp }` (src/session/rules.rs). -/
inductive Protocol where
  | Udp
  | Tcp
deriving DecidableEq, Repr

/-- `enum Mode { RoundRobin, Broadcast }` (src/session/rules.rs). -/
inductive Mode where
  | RoundRobin
  | Broadcast
deriving DecidableEq, Repr

/-- `struct Rule` (src/session/rules.rs): protocol, mode, one source
and an ordered list of destinations. -/
structure Rule where
  protocol : Protocol
  mode : Mode
  source : SockAddr
  destinations : List SockAddr
deriving DecidableEq, Repr

/-! ## Rule store (src/session/rules.rs, `struct Database`)

`Database.rules` is the `Vec<Option<Rule>>`; a `none` entry is a
tombstone.  Rust indexing `self.rules[id]` panics when `id` is out of
range, so the operations that index directly (`drop_rule`,
`update_rule`) return `Option`, with `none` modelling the panic. -/

structure Database where
  rules : List (Option Rule)
deriving DecidableEq, Repr

namespace Database

/-- `Database::new()`. -/
def new : Database := ⟨[]⟩

/-- `Database::create_rule`: `let id = self.rules.len();
self.rules.push(Some(rule)); id`.  Returns the allocated id and the
updated store. -/
def create_rule (db : Database) (rule : Rule) : Nat × Database :=
  (db.rules.length, ⟨db.rules ++ [some rule]⟩)

/-- `Database::drop_rule`: `mem::replace(&mut self.rules[id], None)`.
`none` models the index-out-of-bounds panic; otherwise returns the
previous entry (which is `none` for a tombstone) and the store with a
tombstone written at `id`. -/
def drop_rule (db : Database) (id : Nat) : Option (Option Rule × Database) :=
  if id < db.rules.length then
    some (db.rules.getD id none, ⟨db.rules.set id none⟩)
  else
    none

/-- `Database::update_rule`: `mem::replace(&mut self.rules[id],
Some(rule))`.  `none` models the index-out-of-bounds panic; otherwise
returns the previous entry and the store with `some rule` written at
`id` — also when the previous entry was a tombstone. -/
def update_rule (db : Database) (id : Nat) (rule : Rule) :
    Option (Option Rule × Database) :=
  if id < db.rules.length then
    some (db.rules.getD id none, ⟨db.rules.set id (some rule)⟩)
  else
    none

/-- `Database::get_rule`: `self.rules.get(id).unwrap_or(&None).as_ref()`.
Total: out-of-range ids and tombstones both yield `none`. -/
def get_rule (db : Database) (id : Nat) : Option Rule :=
  db.rules.getD id none

end Database

/-! ## HTTP handlers (src/rest/handlers.rs)

Warp handlers over the store.  Status codes are the numeric HTTP
codes.  A handler that can hit a Rust panic returns `Option`; `none`
models the panic (warp surfaces it as a failed request, not as any
status the handler chose). -/

/-- `handlers::list_rules`: `handle.rules.iter().filter_map(|x|
x.as_ref()).collect()` — live rules in id order, tombstones skipped. -/
def list_rules (db : Database) : List Rule :=
  db.rules.filterMap id

/-- `handlers::create_rule`: create in the store, reply `201 CREATED`
with the allocated `rule_id`.  No validation of any kind is performed
on the incoming rule. -/
def rest_create_rule (rule : Rule) (db : Database) : Nat × Nat × Database :=
  let r := db.create_rule rule
  (201, r.1, r.2)

/-- `handlers::delete_rule`: `drop_rule`, then `204 NO_CONTENT` if a
rule was removed and `404 NOT_FOUND` if the entry was a tombstone.
`none` models the panic on an out-of-range id. -/
def rest_delete_rule (id : Nat) (db : Database) : Option (Nat × Database) :=
  (db.drop_rule id).map fun r =>
    (match r.1 with
      | some _ => 204
      | none => 404,
     r.2)

/-- `handlers::update_rule`: `update_rule`, then `200 OK` if a
previous rule existed and `404 NOT_FOUND` if the entry was a
tombstone.  `none` models the panic on an out-of-range id. -/
def rest_update_rule (id : Nat) (rule : Rule) (db : Database) :
    Option (Nat × Database) :=
  (db.update_rule id rule).map fun r =>
    (match r.1 with
      | some _ => 200
      | none => 404,
     r.2)

/-! ## Strategies (src/session/strategy.rs) -/

/-- `struct RoundRobinStrategy { next: usize, peers: Vec<SocketAddr> }`. -/
structure RoundRobinStrategy where
  next : Nat
  peers : List SockAddr
deriving DecidableEq, Repr

/-- `RoundRobinStrategy::new`: cursor starts at 0. -/
def RoundRobinStrategy.new (peers : List SockAddr) : RoundRobinStrategy :=
  ⟨0, peers⟩

/-- `<RoundRobinStrategy as Strategy>::destinations`:
`vec![self.peers[self.next]]`, then `self.next += 1` and reset to 0
when it reaches `len`.  `none` models the indexing panic when the
cursor is out of range (in particular on an empty peer list). -/
def RoundRobinStrategy.destinations (s : RoundRobinStrategy) :
    Option (List SockAddr × RoundRobinStrategy) :=
  if h : s.next < s.peers.length then
    some ([s.peers.get ⟨s.next, h⟩],
      ⟨if s.next + 1 ≥ s.peers.length then 0 else s.next + 1, s.peers⟩)
  else
    none

/-- `struct BroadcastStrategy { peers: Vec<SocketAddr> }`. -/
structure BroadcastStrategy where
  peers : List SockAddr
deriving DecidableEq, Repr

/-- `<BroadcastStrategy as Strategy>::destinations`: clones the whole
peer list; no state change. -/
def BroadcastStrategy.destinations (s : BroadcastStrategy) :
    List SockAddr × BroadcastStrategy :=
  (s.peers, s)

/-- The closed set of `Box<dyn Strategy>` values produced by
`StrategyFactory::make`. -/
inductive StrategyImpl where
  | broadcast (s : BroadcastStrategy)
  | roundRobin (s : RoundRobinStrategy)
deriving DecidableEq, Repr

/-- `StrategyFactory::make`: `Broadcast` picks the broadcast strategy,
`RoundRobin` the round-robin strategy, over the rule's destinations. -/
def StrategyFactory.make (rule : Rule) : StrategyImpl :=
  match rule.mode with
  | Mode.Broadcast => StrategyImpl.broadcast ⟨rule.destinations⟩
  | Mode.RoundRobin => StrategyImpl.roundRobin (RoundRobinStrategy.new rule.destinations)

/-- Dynamic dispatch of `Strategy::destinations`; `none` models a
panic inside the strategy. -/
def StrategyImpl.destinations : StrategyImpl → Option (List SockAddr × StrategyImpl)
  | StrategyImpl.broadcast s =>
      some (s.destinations.1, StrategyImpl.broadcast s.destinations.2)
  | StrategyImpl.roundRobin s =>
      (s.destinations).map fun r => (r.1, StrategyImpl.roundRobin r.2)

/-- Run `destinations()` a number of times, collecting the returned
lists in order; `none` as soon as one call panics. -/
def RoundRobinStrategy.destinationsN :
    Nat → RoundRobinStrategy → Option (List (List SockAddr) × RoundRobinStrategy)
  | 0, s => some ([], s)
  | k + 1, s =>
    s.destinations.bind fun r =>
      (destinationsN k r.2).map fun rs => (r.1 :: rs.1, rs.2)

/-! ## Session manager (src/session/mod.rs)

Only the session-spawning decision of `Manager::add_rule` is
behavioural: the kind of session the manager spawns for a rule, and
the store update. -/

/-- Which forwarding loop a spawned session runs. -/
inductive SessionKind where
  | udp
  | tcp
deriving DecidableEq, Repr

/-- The manager's observable state: spawned sessions (in spawn order)
and the rule database. -/
structure ManagerState where
  sessions : List SessionKind
  database : Database
deriving DecidableEq, Repr

/-- `Manager::add_rule`: spawns
`UdpSession::new(&rule, StrategyFactory::make(&rule)).start()` —
unconditionally a UDP session, whatever `rule.protocol` is — pushes
the task, then `create_rule(rule)` on the database. -/
def Manager.add_rule (m : ManagerState) (rule : Rule) : ManagerState :=
  ⟨m.sessions ++ [SessionKind.udp], (m.database.create_rule rule).2⟩

/-! ## UDP forwarding loop (src/protocol/udp.rs `UdpSession::start`,
identical control flow in src/udp.rs `UdpSession::run`)

The loop's interaction with the network is modelled as a trace of
receive events.  `recvOk n sendOk` is a successful `recv` of `n` bytes
whose subsequent `send_to` calls succeed or fail according to
`sendOk` (read positionally, missing entries meaning success);
`recvErr` is a failed `recv`. -/

inductive UdpEvent where
  | recvErr
  | recvOk (n : Nat) (sendOk : List Bool)
deriving DecidableEq, Repr

/-- Outcome of running the loop on a finite trace. -/
inductive RunResult where
  /-- The trace was exhausted with the loop still running. -/
  | stillRunning (s : StrategyImpl)
  /-- The loop broke out and returned `Ok(())` (zero-byte receive). -/
  | terminatedOk
  /-- The loop returned `Err` (bind, recv or send error). -/
  | terminatedErr
  /-- A panic inside the strategy. -/
  | panicked
deriving DecidableEq, Repr

/-- The `for addr in &strategy.destinations()` send loop: `true` iff
every `send_to` succeeded; the first failure makes the session
`return Err`. -/
def sendLoop : List SockAddr → List Bool → Bool
  | [], _ => true
  | _ :: ds, [] => sendLoop ds []
  | _ :: ds, ok :: oks => ok && sendLoop ds oks

/-- The body of `UdpSession::start` after a successful bind: receive,
return `Err` on a recv error, break with `Ok(())` on a zero-byte
receive, otherwise fan out to `strategy.destinations()` and return
`Err` on the first send failure. -/
def udpLoop (s : StrategyImpl) : List UdpEvent → RunResult
  | [] => RunResult.stillRunning s
  | UdpEvent.recvErr :: _ => RunResult.terminatedErr
  | UdpEvent.recvOk n sendOk :: rest =>
    if n = 0 then RunResult.terminatedOk
    else
      match s.destinations with
      | none => RunResult.panicked
      | some (ds, s1) =>
        if sendLoop ds sendOk then udpLoop s1 rest
        else RunResult.terminatedErr

/-- `UdpSession::start`: a failed `UdpSocket::bind` returns `Err`
before the loop; otherwise run the loop on the trace. -/
def udpRun (bindOk : Bool) (s : StrategyImpl) (events : List UdpEvent) : RunResult :=
  if bindOk then udpLoop s events else RunResult.terminatedErr

/-! ## The JSON wire format of rules (src/config.rs, serde derives in
src/session/rules.rs)

`Rule::to_json` / `Rule::from_json` are `serde_json::to_string` /
`from_str` over the derived `Serialize`/`Deserialize` of `Rule`.  The
JSON text layer (serde_json) is external; it is modelled by a JSON
value tree.  What the derive determines — field names, required
fields, the kebab-case enum variant strings, and `SocketAddr`'s
string form — is embedded below. -/

/-- Decimal digit to its character. -/
def digitChar (d : Nat) : Char := Char.ofNat (48 + d)

/-- Character to decimal digit value. -/
def charVal (c : Char) : Nat := c.toNat - 48

/-- Is the character a decimal digit? -/
def isDigitChar (c : Char) : Bool := 48 ≤ c.toNat && c.toNat ≤ 57

/-- Decimal representation of a natural number, most significant
digit first (the integer `Display` used by `SocketAddr`). -/
def natChars (n : Nat) : List Char :=
  if n = 0 then ['0'] else ((Nat.digits 10 n).map digitChar).reverse

/-- Parse a non-empty all-digit character list as a natural number
(the integer `FromStr` used by `SocketAddr` parsing; `std` also
rejects leading zeros in IP octets, an edge no encoded value
produces). -/
def parseNatChars (cs : List Char) : Option Nat :=
  if cs.isEmpty then none
  else if cs.all isDigitChar then
    some (cs.foldl (fun a c => 10 * a + charVal c) 0)
  else none

/-- Split a character list on a separator; the separator is dropped,
`n` separators yield `n + 1` (possibly empty) chunks. -/
def splitOnChar (sep : Char) : List Char → List (List Char)
  | [] => [[]]
  | x :: xs =>
    if x = sep then [] :: splitOnChar sep xs
    else
      match splitOnChar sep xs with
      | [] => [[x]]
      | r :: rs => (x :: r) :: rs

/-- `Display` for `SocketAddr` (IPv4): `a.b.c.d:port`. -/
def SockAddr.displayChars (x : SockAddr) : List Char :=
  natChars x.a.val ++ '.' :: natChars x.b.val ++ '.' :: natChars x.c.val
    ++ '.' :: natChars x.d.val ++ ':' :: natChars x.port.val

/-- `Display` for `SocketAddr` as a string. -/
def SockAddr.display (x : SockAddr) : String := ⟨x.displayChars⟩

/-- Parse one IPv4 octet: a decimal number below 256. -/
def parseOctet (cs : List Char) : Option (Fin 256) :=
  match parseNatChars cs with
  | some v => if h : v < 256 then some ⟨v, h⟩ else none
  | none => none

/-- Parse a port: a decimal number below 65536. -/
def parsePort (cs : List Char) : Option (Fin 65536) :=
  match parseNatChars cs with
  | some v => if h : v < 65536 then some ⟨v, h⟩ else none
  | none => none

/-- `FromStr` for `SocketAddr` (IPv4 form): `a.b.c.d:port` with four
octets and a port. -/
def parseSockAddrChars (cs : List Char) : Option SockAddr :=
  match splitOnChar ':' cs with
  | [ip, portCs] =>
    match splitOnChar '.' ip with
    | [ca, cb, cc, cd] =>
      match parseOctet ca, parseOctet cb, parseOctet cc, parseOctet cd,
          parsePort portCs with
      | some a, some b, some c, some d, some p => some ⟨a, b, c, d, p⟩
      | _, _, _, _, _ => none
    | _ => none
  | _ => none

/-- `FromStr` for `SocketAddr` on strings. -/
def SockAddr.parse (s : String) : Option SockAddr :=
  parseSockAddrChars s.data

/-- JSON values (the fragment the rule wire format uses). -/
inductive Json where
  | str (s : String)
  | arr (elems : List Json)
  | obj (fields : List (String × Json))

/-- Wire string of a `Protocol` variant: serde kebab-case rename. -/
def Protocol.wire : Protocol → String
  | Protocol.Udp => "udp"
  | Protocol.Tcp => "tcp"

/-- Wire string of a `Mode` variant: serde kebab-case rename. -/
def Mode.wire : Mode → String
  | Mode.RoundRobin => "round-robin"
  | Mode.Broadcast => "broadcast"

/-- `Rule::to_json` (derived `Serialize`): an object with the four
lowercase field names in declaration order, enum variants as their
kebab-case strings, addresses as display strings. -/
def Rule.to_json (r : Rule) : Json :=
  Json.obj
    [("protocol", Json.str r.protocol.wire),
     ("mode", Json.str r.mode.wire),
     ("source", Json.str r.source.display),
     ("destinations", Json.arr (r.destinations.map fun d => Json.str d.display))]

/-- First value stored under a key in a JSON object. -/
def getField : List (String × Json) → String → Option Json
  | [], _ => none
  | (k, v) :: rest, key => if k = key then some v else getField rest key

/-- A required field: serde errors on a missing field. -/
def reqField (fields : List (String × Json)) (key : String) : Except String Json :=
  match getField fields key with
  | some v => Except.ok v
  | none => Except.error ("missing field " ++ key)

/-- Deserialize a `Protocol` from its wire string. -/
def decodeProtocol : Json → Except String Protocol
  | Json.str s =>
    if s = "udp" then Except.ok Protocol.Udp
    else if s = "tcp" then Except.ok Protocol.Tcp
    else Except.error "unknown variant for Protocol"
  | _ => Except.error "expected string for Protocol"

/-- Deserialize a `Mode` from its wire string. -/
def decodeMode : Json → Except String Mode
  | Json.str s =>
    if s = "round-robin" then Except.ok Mode.RoundRobin
    else if s = "broadcast" then Except.ok Mode.Broadcast
    else Except.error "unknown variant for Mode"
  | _ => Except.error "expected string for Mode"

/-- Deserialize a `SocketAddr` from its JSON string form. -/
def decodeSockAddr : Json → Except String SockAddr
  | Json.str s =>
    match SockAddr.parse s with
    | some a => Except.ok a
    | none => Except.error "invalid socket address"
  | _ => Except.error "expected string for SocketAddr"

/-- Deserialize a `Vec<SocketAddr>` element by element. -/
def decodeSockAddrList : List Json → Except String (List SockAddr)
  | [] => Except.ok []
  | j :: js => do
    let a ← decodeSockAddr j
    let rest ← decodeSockAddrList js
    Except.ok (a :: rest)

/-- `Rule::from_json` (derived `Deserialize`): all four fields are
required — the derive has no `serde(default)` on any field, in
particular none on `mode`. -/
def Rule.from_json : Json → Except String Rule
  | Json.obj fields => do
    let pj ← reqField fields "protocol"
    let protocol ← decodeProtocol pj
    let mj ← reqField fields "mode"
    let mode ← decodeMode mj
    let sj ← reqField fields "source"
    let source ← decodeSockAddr sj
    let dj ← reqField fields "destinations"
    let destinations ←
      match dj with
      | Json.arr js => decodeSockAddrList js
      | _ => Except.error "expected array for destinations"
    Except.ok ⟨protocol, mode, source, destinations⟩
  | _ => Except.error "expected object for Rule"

/-- The field names of a JSON object, in order. -/
def Json.keys : Json → List String
  | Json.obj fields => fields.map Prod.fst
  | _ => []

/-! ## Sample data for concrete evaluations -/

instance {ε α : Type} [DecidableEq ε] [DecidableEq α] : DecidableEq (Except ε α) :=
  fun x y =>
    match x, y with
    | Except.ok a, Except.ok b =>
      match decEq a b with
      | isTrue h => isTrue (h ▸ rfl)
      | isFalse h => isFalse fun hh => h (Except.ok.inj hh)
    | Except.error a, Except.error b =>
      match decEq a b with
      | isTrue h => isTrue (h ▸ rfl)
      | isFalse h => isFalse fun hh => h (Except.error.inj hh)
    | Except.ok _, Except.error _ => isFalse fun h => Except.noConfusion h
    | Except.error _, Except.ok _ => isFalse fun h => Except.noConfusion h

/-- 127.0.0.1:8080. -/
def addrA : SockAddr :=
  ⟨⟨127, by decide⟩, ⟨0, by decide⟩, ⟨0, by decide⟩, ⟨1, by decide⟩, ⟨8080, by decide⟩⟩

/-- 127.0.0.1:8081. -/
def addrB : SockAddr :=
  ⟨⟨127, by decide⟩, ⟨0, by decide⟩, ⟨0, by decide⟩, ⟨1, by decide⟩, ⟨8081, by decide⟩⟩

/-- 127.0.0.1:8082. -/
def addrC : SockAddr :=
  ⟨⟨127, by decide⟩, ⟨0, by decide⟩, ⟨0, by decide⟩, ⟨1, by decide⟩, ⟨8082, by decide⟩⟩

/-- A TCP rule in broadcast mode with two destinations — the shape
§3/§8 of the specification says must be rejected. -/
def tcpBroadcastRule : Rule := ⟨Protocol.Tcp, Mode.Broadcast, addrA, [addrB, addrC]⟩

/-- A valid TCP round-robin rule. -/
def tcpRoundRobinRule : Rule := ⟨Protocol.Tcp, Mode.RoundRobin, addrA, [addrB]⟩

/-- A valid UDP broadcast rule. -/
def udpBroadcastRule : Rule := ⟨Protocol.Udp, Mode.Broadcast, addrA, [addrB, addrC]⟩

/-- A second UDP rule, distinct from `udpBroadcastRule`. -/
def udpRoundRobinRule : Rule := ⟨Protocol.Udp, Mode.RoundRobin, addrB, [addrC]⟩

/-! ## Claims about the rule store and handlers -/

/-- C1: the spec says a rule with `protocol = TCP` and
`mode = Broadcast` is rejected with HTTP 400, no id allocated and the
store unchanged.  The code performs no such validation: on an empty
store, POSTing the TCP broadcast rule answers 201, allocates id 0,
and the rule is stored and listed. -/
theorem create_accepts_tcp_broadcast :
    rest_create_rule tcpBroadcastRule Database.new
        = (201, 0, ⟨[some tcpBroadcastRule]⟩)
      ∧ (201 : Nat) ≠ 400
      ∧ list_rules ⟨[some tcpBroadcastRule]⟩ = [tcpBroadcastRule]
      ∧ Database.get_rule ⟨[some tcpBroadcastRule]⟩ 0 = some tcpBroadcastRule := by
  refine ⟨rfl, by decide, rfl, rfl⟩

/-- C3: the spec says `Manager::add_rule` spawns a session of the
kind matching the rule's protocol.  The code spawns
`UdpSession::new(...)` unconditionally: adding a (valid) TCP rule to
a fresh manager spawns a UDP session, not a TCP one. -/
theorem add_rule_spawns_udp_for_tcp :
    (Manager.add_rule ⟨[], Database.new⟩ tcpRoundRobinRule).sessions
        = [SessionKind.udp]
      ∧ SessionKind.udp ≠ SessionKind.tcp
      ∧ (Manager.add_rule ⟨[], Database.new⟩ tcpRoundRobinRule).database
        = ⟨[some tcpRoundRobinRule]⟩ := by
  refine ⟨rfl, by decide, rfl⟩

/-- C4: the spec says update on an unknown or tombstoned id answers
404 and leaves the store unchanged, the tombstoned id afterwards
never being returned by `get`.  The code answers 404 on a tombstone
but writes the new rule into the tombstoned slot, which `get_rule`
then returns; and on a never-allocated id it panics
(`self.rules[id]` out of bounds) instead of answering 404.  On a
live id it behaves as claimed (200, previous rule replaced). -/
theorem update_resurrects_tombstone_and_panics_out_of_range :
    rest_update_rule 0 udpRoundRobinRule ⟨[none]⟩
        = some (404, ⟨[some udpRoundRobinRule]⟩)
      ∧ Database.get_rule ⟨[some udpRoundRobinRule]⟩ 0 = some udpRoundRobinRule
      ∧ rest_update_rule 0 udpRoundRobinRule ⟨[]⟩ = none
      ∧ rest_update_rule 0 udpRoundRobinRule ⟨[some udpBroadcastRule]⟩
        = some (200, ⟨[some udpRoundRobinRule]⟩) := by
  refine ⟨rfl, rfl, rfl, rfl⟩

/-- C5: the spec says delete answers 204 on a live id and 404 on any
other id, including ids never allocated, and never fails otherwise.
The code answers 204 on a live id and 404 on a tombstone (so a second
delete of the same id is 404 as claimed), but on a never-allocated id
it panics (`self.rules[id]` out of bounds) instead of answering
404. -/
theorem delete_panics_on_never_allocated_id :
    rest_delete_rule 0 ⟨[some udpBroadcastRule]⟩ = some (204, ⟨[none]⟩)
      ∧ rest_delete_rule 0 ⟨[none]⟩ = some (404, ⟨[none]⟩)
      ∧ rest_delete_rule 0 (⟨[]⟩ : Database) = none := by
  refine ⟨rfl, rfl, rfl⟩

/-- C6: the spec says ids of successive creates strictly increase and
an id is never reused after the rule it named was deleted.  Creates
do return strictly increasing ids (0 then 1 below), but after
deleting id 0, an `update_rule` on id 0 makes that id name a live
rule again — the id is reused for a rule after deletion. -/
theorem deleted_id_reused_by_update :
    Database.create_rule Database.new udpBroadcastRule
        = (0, ⟨[some udpBroadcastRule]⟩)
      ∧ Database.create_rule ⟨[some udpBroadcastRule]⟩ udpRoundRobinRule
        = (1, ⟨[some udpBroadcastRule, some udpRoundRobinRule]⟩)
      ∧ (0 : Nat) < 1
      ∧ Database.drop_rule ⟨[some udpBroadcastRule, some udpRoundRobinRule]⟩ 0
        = some (some udpBroadcastRule, ⟨[none, some udpRoundRobinRule]⟩)
      ∧ Database.get_rule ⟨[none, some udpRoundRobinRule]⟩ 0 = none
      ∧ Database.update_rule ⟨[none, some udpRoundRobinRule]⟩ 0 tcpRoundRobinRule
        = some (none, ⟨[some tcpRoundRobinRule, some udpRoundRobinRule]⟩)
      ∧ Database.get_rule ⟨[some tcpRoundRobinRule, some udpRoundRobinRule]⟩ 0
        = some tcpRoundRobinRule := by
  refine ⟨rfl, rfl, by decide, rfl, rfl, rfl, rfl⟩

/-- C10: `Database::get_rule` is total over all ids — live,
tombstoned or never allocated — and returns the stored rule exactly
when the id maps to a live rule: `some r` exactly when position `id`
of the store holds the live entry `some r`; tombstones and
out-of-range ids give `none`. -/
theorem get_rule_total_live_iff (db : Database) (id : Nat) (r : Rule) :
    db.get_rule id = some r ↔ db.rules.get? id = some (some r) := by
  unfold Database.get_rule
  rw [List.getD_eq_getElem?_getD, ← List.get?_eq_getElem?]
  cases h : db.rules.get? id with
  | none => simp
  | some v => cases v <;> simp

/-! ## Round-robin rotation (C2) -/

/-- One `destinations()` call with a in-range cursor returns the
singleton of the peer under the cursor and advances the cursor by one
modulo the peer count. -/
theorem roundrobin_step (s : RoundRobinStrategy) (h : s.next < s.peers.length) :
    s.destinations
      = some ([s.peers.get ⟨s.next, h⟩],
          ⟨(s.next + 1) % s.peers.length, s.peers⟩) := by
  unfold RoundRobinStrategy.destinations
  rw [dif_pos h]
  have hcur : (if s.next + 1 ≥ s.peers.length then 0 else s.next + 1)
      = (s.next + 1) % s.peers.length := by
    rcases Nat.lt_or_ge (s.next + 1) s.peers.length with hlt | hge
    · rw [if_neg (by omega), Nat.mod_eq_of_lt hlt]
    · have heq : s.next + 1 = s.peers.length := by omega
      rw [if_pos hge, heq, Nat.mod_self]
  rw [hcur]

theorem obind_some {α β : Type} (a : α) (f : α → Option β) :
    (some a).bind f = f a := rfl

theorem omap_some {α β : Type} (a : α) (f : α → β) :
    (some a).map f = some (f a) := rfl

/-- Unfolding one successful call inside a run of calls. -/
theorem destinationsN_succ_of_step (k : Nat) (s s1 : RoundRobinStrategy)
    (out : List SockAddr) (h : s.destinations = some (out, s1)) :
    RoundRobinStrategy.destinationsN (k + 1) s
      = (RoundRobinStrategy.destinationsN k s1).map fun r => (out :: r.1, r.2) := by
  rw [RoundRobinStrategy.destinationsN, h]
  rfl

/-- A panicking call poisons the whole run. -/
theorem destinationsN_succ_of_panic (k : Nat) (s : RoundRobinStrategy)
    (h : s.destinations = none) :
    RoundRobinStrategy.destinationsN (k + 1) s = none := by
  rw [RoundRobinStrategy.destinationsN, h]
  rfl

/-- Running `destinations()` `k` times from cursor `c` with
`c + k ≤ N` emits the window `peers[c .. c+k)` as singletons and
leaves the cursor at `c + k`, reset to 0 on hitting `N`. -/
theorem roundrobin_window (k : Nat) :
    ∀ (c : Nat) (peers : List SockAddr), c < peers.length → c + k ≤ peers.length →
      RoundRobinStrategy.destinationsN k ⟨c, peers⟩
        = some ((((peers.drop c).take k).map fun a => [a]),
            ⟨if c + k = peers.length then 0 else c + k, peers⟩) := by
  induction k with
  | zero =>
    intro c peers hc _
    have hne : ¬ c + 0 = peers.length := by omega
    rw [if_neg hne]
    rfl
  | succ k ih =>
    intro c peers hc hck
    have hdrop : peers.drop c = peers.get ⟨c, hc⟩ :: peers.drop (c + 1) := by
      rw [List.get_eq_getElem]
      exact List.drop_eq_getElem_cons hc
    rcases Nat.lt_or_ge (c + 1) peers.length with hlt | hge
    · have hstep : (⟨c, peers⟩ : RoundRobinStrategy).destinations
          = some ([peers.get ⟨c, hc⟩], ⟨c + 1, peers⟩) := by
        have hs := roundrobin_step ⟨c, peers⟩ hc
        dsimp only at hs
        rw [Nat.mod_eq_of_lt hlt] at hs
        exact hs
      rw [destinationsN_succ_of_step k _ _ _ hstep,
        ih (c + 1) peers hlt (by omega)]
      have harith : c + 1 + k = c + (k + 1) := by omega
      rw [hdrop, List.take_succ_cons, List.map_cons, harith]
      rfl
    · -- the step wrapped: c was the last index, so k must be 0
      have hce : c + 1 = peers.length := by omega
      have hk0 : k = 0 := by omega
      subst hk0
      have hstep : (⟨c, peers⟩ : RoundRobinStrategy).destinations
          = some ([peers.get ⟨c, hc⟩], ⟨0, peers⟩) := by
        have hs := roundrobin_step ⟨c, peers⟩ hc
        dsimp only at hs
        rw [hce, Nat.mod_self] at hs
        exact hs
      rw [destinationsN_succ_of_step 0 _ _ _ hstep]
      have hdropnil : peers.drop (c + 1) = [] :=
        List.drop_eq_nil_of_le (by omega)
      rw [if_pos (by omega : c + (0 + 1) = peers.length), hdrop, hdropnil]
      rfl

/-- Splitting a run of `destinations()` calls at any point. -/
theorem roundrobin_split (m n : Nat) :
    ∀ s : RoundRobinStrategy,
      RoundRobinStrategy.destinationsN (m + n) s
        = (RoundRobinStrategy.destinationsN m s).bind fun r1 =>
            (RoundRobinStrategy.destinationsN n r1.2).map fun r2 =>
              (r1.1 ++ r2.1, r2.2) := by
  induction m with
  | zero =>
    intro s
    rw [Nat.zero_add]
    show RoundRobinStrategy.destinationsN n s
        = (RoundRobinStrategy.destinationsN n s).map fun r2 => ([] ++ r2.1, r2.2)
    cases h : RoundRobinStrategy.destinationsN n s with
    | none => rfl
    | some r => simp
  | succ m ih =>
    intro s
    have harith : m + 1 + n = (m + n) + 1 := by omega
    rw [harith]
    cases hs : s.destinations with
    | none =>
      rw [destinationsN_succ_of_panic _ _ hs, destinationsN_succ_of_panic _ _ hs]
      rfl
    | some r =>
      obtain ⟨out, s1⟩ := r
      rw [destinationsN_succ_of_step _ _ _ _ hs,
        destinationsN_succ_of_step _ _ _ _ hs, ih s1]
      cases h1 : RoundRobinStrategy.destinationsN m s1 with
      | none => rfl
      | some r1 =>
        obtain ⟨o1, t1⟩ := r1
        simp only [obind_some, omap_some]
        cases h2 : RoundRobinStrategy.destinationsN n t1 with
        | none => rfl
        | some r2 => simp

/-- C2: with a non-empty peer list and the cursor in range, each
`destinations()` call returns exactly the singleton of the peer under
the cursor and advances the cursor to `(next + 1) mod N` (which stays
in `[0, N)`), and `N` consecutive calls emit every destination
exactly once, in list order from the cursor with wrap-around,
returning the strategy to its starting state. -/
theorem roundrobin_spec (s : RoundRobinStrategy) (h : s.next < s.peers.length) :
    s.destinations
        = some ([s.peers.get ⟨s.next, h⟩],
            ⟨(s.next + 1) % s.peers.length, s.peers⟩)
      ∧ (s.next + 1) % s.peers.length < s.peers.length
      ∧ RoundRobinStrategy.destinationsN s.peers.length s
        = some (((s.peers.drop s.next ++ s.peers.take s.next).map fun a => [a]), s) := by
  refine ⟨roundrobin_step s h, Nat.mod_lt _ (by omega), ?_⟩
  obtain ⟨c, peers⟩ := s
  dsimp only at h ⊢
  have hsplit := roundrobin_split (peers.length - c) c ⟨c, peers⟩
  rw [Nat.sub_add_cancel (Nat.le_of_lt h)] at hsplit
  rw [hsplit, roundrobin_window (peers.length - c) c peers h (by omega),
    if_pos (by omega : c + (peers.length - c) = peers.length)]
  simp only [obind_some]
  rw [roundrobin_window c 0 peers (by omega) (by omega)]
  simp only [omap_some, Nat.zero_add, List.drop_zero]
  rw [if_neg (by omega : ¬ c = peers.length)]
  rw [List.take_of_length_le (Nat.le_of_eq (List.length_drop c peers)),
    List.map_append]

/-- Witness for `roundrobin_spec` at cursor 1 over three peers. -/
theorem roundrobin_spec_witness :
    ((⟨1, [addrA, addrB, addrC]⟩ : RoundRobinStrategy).next
        < (⟨1, [addrA, addrB, addrC]⟩ : RoundRobinStrategy).peers.length)
      ∧ RoundRobinStrategy.destinationsN 3 ⟨1, [addrA, addrB, addrC]⟩
        = some ([[addrB], [addrC], [addrA]], ⟨1, [addrA, addrB, addrC]⟩) := by
  refine ⟨by decide, ?_⟩
  have h := roundrobin_spec ⟨1, [addrA, addrB, addrC]⟩ (by decide)
  exact h.2.2

/-! ## UDP loop error behaviour (C7) -/

theorem udpLoop_cons_recvErr (s : StrategyImpl) (rest : List UdpEvent) :
    udpLoop s (UdpEvent.recvErr :: rest) = RunResult.terminatedErr := rfl

theorem udpLoop_cons_zero (s : StrategyImpl) (sends : List Bool)
    (rest : List UdpEvent) :
    udpLoop s (UdpEvent.recvOk 0 sends :: rest) = RunResult.terminatedOk := rfl

theorem udpLoop_cons_panic (s : StrategyImpl) (n : Nat) (sends : List Bool)
    (rest : List UdpEvent) (hn : ¬ n = 0) (hd : s.destinations = none) :
    udpLoop s (UdpEvent.recvOk n sends :: rest) = RunResult.panicked := by
  rw [udpLoop, if_neg hn, hd]

theorem udpLoop_cons_sendfail (s : StrategyImpl) (n : Nat) (ds : List SockAddr)
    (s1 : StrategyImpl) (sends : List Bool) (rest : List UdpEvent)
    (hn : ¬ n = 0) (hd : s.destinations = some (ds, s1))
    (hs : sendLoop ds sends = false) :
    udpLoop s (UdpEvent.recvOk n sends :: rest) = RunResult.terminatedErr := by
  rw [udpLoop, if_neg hn, hd]
  dsimp only
  rw [hs]
  rfl

theorem udpLoop_cons_sendok (s : StrategyImpl) (n : Nat) (ds : List SockAddr)
    (s1 : StrategyImpl) (sends : List Bool) (rest : List UdpEvent)
    (hn : ¬ n = 0) (hd : s.destinations = some (ds, s1))
    (hs : sendLoop ds sends = true) :
    udpLoop s (UdpEvent.recvOk n sends :: rest) = udpLoop s1 rest := by
  rw [udpLoop, if_neg hn, hd]
  dsimp only
  rw [hs]
  rfl

/-- Processing a trace decomposes along any split point: the suffix
only runs if the prefix left the loop still running. -/
theorem udpLoop_append (pre : List UdpEvent) :
    ∀ (s : StrategyImpl) (post : List UdpEvent),
      udpLoop s (pre ++ post)
        = match udpLoop s pre with
          | RunResult.stillRunning s1 => udpLoop s1 post
          | r => r := by
  induction pre with
  | nil => intro s post; rfl
  | cons e pre ih =>
    intro s post
    cases e with
    | recvErr => rfl
    | recvOk n sends =>
      rcases Nat.eq_zero_or_pos n with hn | hn
      · subst hn; rfl
      · have hn1 : ¬ n = 0 := by omega
        cases hd : s.destinations with
        | none =>
          rw [List.cons_append, udpLoop_cons_panic s n sends (pre ++ post) hn1 hd,
            udpLoop_cons_panic s n sends pre hn1 hd]
        | some r =>
          obtain ⟨ds, s1⟩ := r
          cases hs : sendLoop ds sends with
          | false =>
            rw [List.cons_append,
              udpLoop_cons_sendfail s n ds s1 sends (pre ++ post) hn1 hd hs,
              udpLoop_cons_sendfail s n ds s1 sends pre hn1 hd hs]
          | true =>
            rw [List.cons_append,
              udpLoop_cons_sendok s n ds s1 sends (pre ++ post) hn1 hd hs,
              udpLoop_cons_sendok s n ds s1 sends pre hn1 hd hs, ih s1 post]

/-- C7 counterexample: the spec claims a transient `send_to` error is
logged and the loop continues with further destinations and
datagrams.  On a successfully bound session with one destination, a
failing send on the first datagram makes the session return `Err` —
it does not continue to the second datagram (had it continued, the
run would still be running in the unchanged broadcast state). -/
theorem udp_send_error_does_not_continue :
    udpRun true (StrategyImpl.broadcast ⟨[addrB]⟩)
        [UdpEvent.recvOk 5 [false], UdpEvent.recvOk 3 [true]]
      = RunResult.terminatedErr
    ∧ udpRun true (StrategyImpl.broadcast ⟨[addrB]⟩)
        [UdpEvent.recvOk 5 [false], UdpEvent.recvOk 3 [true]]
      ≠ RunResult.stillRunning (StrategyImpl.broadcast ⟨[addrB]⟩) :=
  ⟨rfl, by decide⟩

/-- C7 amended: in the UDP session receive loop, an error on an
individual `send_to` terminates the session with an error (as does a
`recv` error); a bind error terminates the session with an error; and
a zero-byte receive terminates it successfully.  Stated after any
prefix of successfully forwarded datagrams. -/
theorem udp_session_error_behaviour (s s1 : StrategyImpl)
    (pre : List UdpEvent) (hpre : udpLoop s pre = RunResult.stillRunning s1) :
    (∀ events, udpRun false s events = RunResult.terminatedErr)
      ∧ (∀ rest, udpRun true s (pre ++ UdpEvent.recvErr :: rest)
          = RunResult.terminatedErr)
      ∧ (∀ sends rest, udpRun true s (pre ++ UdpEvent.recvOk 0 sends :: rest)
          = RunResult.terminatedOk)
      ∧ (∀ n ds s2 sends rest, ¬ n = 0 → s1.destinations = some (ds, s2) →
          sendLoop ds sends = false →
          udpRun true s (pre ++ UdpEvent.recvOk n sends :: rest)
            = RunResult.terminatedErr) := by
  refine ⟨fun events => rfl, ?_, ?_, ?_⟩
  · intro rest
    show udpLoop s (pre ++ UdpEvent.recvErr :: rest) = RunResult.terminatedErr
    rw [udpLoop_append, hpre]
    rfl
  · intro sends rest
    show udpLoop s (pre ++ UdpEvent.recvOk 0 sends :: rest) = RunResult.terminatedOk
    rw [udpLoop_append, hpre]
    rfl
  · intro n ds s2 sends rest hn hd hs
    show udpLoop s (pre ++ UdpEvent.recvOk n sends :: rest) = RunResult.terminatedErr
    rw [udpLoop_append, hpre]
    exact udpLoop_cons_sendfail s1 n ds s2 sends rest hn hd hs

/-- Witness for `udp_session_error_behaviour`: a broadcast session
over one destination after one successfully forwarded datagram. -/
theorem udp_session_error_behaviour_witness :
    udpLoop (StrategyImpl.broadcast ⟨[addrB]⟩) [UdpEvent.recvOk 7 [true]]
        = RunResult.stillRunning (StrategyImpl.broadcast ⟨[addrB]⟩)
      ∧ udpRun true (StrategyImpl.broadcast ⟨[addrB]⟩)
          ([UdpEvent.recvOk 7 [true]] ++ UdpEvent.recvErr :: [])
        = RunResult.terminatedErr
      ∧ udpRun true (StrategyImpl.broadcast ⟨[addrB]⟩)
          ([UdpEvent.recvOk 7 [true]] ++ UdpEvent.recvOk 0 [] :: [])
        = RunResult.terminatedOk
      ∧ udpRun true (StrategyImpl.broadcast ⟨[addrB]⟩)
          ([UdpEvent.recvOk 7 [true]] ++ UdpEvent.recvOk 5 [false] :: [])
        = RunResult.terminatedErr := by
  have h := udp_session_error_behaviour (StrategyImpl.broadcast ⟨[addrB]⟩)
      (StrategyImpl.broadcast ⟨[addrB]⟩) [UdpEvent.recvOk 7 [true]] rfl
  exact ⟨rfl, h.2.1 [], h.2.2.1 [] [],
    h.2.2.2 5 [addrB] (StrategyImpl.broadcast ⟨[addrB]⟩) [false] [] (by decide) rfl rfl⟩

/-! ## Decimal and address round trips (towards C8/C9) -/

/-- The four character facts about decimal digits. -/
theorem digit_facts : ∀ d, d < 10 →
    isDigitChar (digitChar d) = true ∧ charVal (digitChar d) = d
      ∧ digitChar d ≠ '.' ∧ digitChar d ≠ ':' := by decide

/-- Every character of a decimal representation is a digit. -/
theorem natChars_all_digits (n : Nat) : ∀ c ∈ natChars n, isDigitChar c = true := by
  intro c hc
  unfold natChars at hc
  by_cases h0 : n = 0
  · rw [if_pos h0] at hc
    rcases List.mem_singleton.mp hc with rfl
    decide
  · rw [if_neg h0] at hc
    rw [List.mem_reverse, List.mem_map] at hc
    obtain ⟨d, hd, rfl⟩ := hc
    exact (digit_facts d (Nat.digits_lt_base (by norm_num) hd)).1

/-- A non-digit character never occurs in a decimal representation. -/
theorem not_digit_not_mem (c : Char) (h : isDigitChar c = false) (n : Nat) :
    c ∉ natChars n := by
  intro hm
  have hd := natChars_all_digits n c hm
  rw [h] at hd
  exact Bool.noConfusion hd

/-- A decimal representation is never empty. -/
theorem natChars_ne_nil (n : Nat) : natChars n ≠ [] := by
  unfold natChars
  by_cases h0 : n = 0
  · rw [if_pos h0]
    exact List.cons_ne_nil _ _
  · rw [if_neg h0]
    intro h
    rw [List.reverse_eq_nil_iff, List.map_eq_nil_iff] at h
    exact (Nat.digits_ne_nil_iff_ne_zero.mpr h0) h

theorem foldl_digitChar (L : List Nat) :
    ∀ acc : Nat, (∀ d ∈ L, d < 10) →
      (L.map digitChar).foldl (fun a c => 10 * a + charVal c) acc
        = L.foldl (fun a d => 10 * a + d) acc := by
  induction L with
  | nil => intro acc _; rfl
  | cons d L ih =>
    intro acc h
    rw [List.map_cons, List.foldl_cons, List.foldl_cons,
      (digit_facts d (h d (List.mem_cons_self d L))).2.1]
    exact ih _ fun x hx => h x (List.mem_cons_of_mem d hx)

theorem foldl_ofDigits (L : List Nat) :
    ∀ acc : Nat, L.foldl (fun a d => 10 * a + d) acc
      = acc * 10 ^ L.length + Nat.ofDigits 10 L.reverse := by
  induction L with
  | nil => intro acc; simp [Nat.ofDigits_nil]
  | cons x L ih =>
    intro acc
    rw [List.foldl_cons, ih, List.reverse_cons, Nat.ofDigits_append,
      Nat.ofDigits_singleton, List.length_cons, List.length_reverse]
    ring

/-- Parsing inverts printing for decimal numbers. -/
theorem parse_natChars (n : Nat) : parseNatChars (natChars n) = some n := by
  have hall : (natChars n).all isDigitChar = true :=
    List.all_eq_true.mpr (natChars_all_digits n)
  unfold parseNatChars
  rw [List.isEmpty_eq_false.mpr (natChars_ne_nil n), hall]
  simp only [Bool.false_eq_true, if_false, if_true]
  congr 1
  by_cases h0 : n = 0
  · subst h0; rfl
  · unfold natChars
    rw [if_neg h0, ← List.map_reverse,
      foldl_digitChar _ 0
        (fun d hd => Nat.digits_lt_base (by norm_num) (List.mem_reverse.mp hd)),
      foldl_ofDigits, List.reverse_reverse, Nat.ofDigits_digits]
    simp

/-- Splitting a separator-free chunk. -/
theorem splitOnChar_not_mem (sep : Char) :
    ∀ cs : List Char, sep ∉ cs → splitOnChar sep cs = [cs] := by
  intro cs
  induction cs with
  | nil => intro _; rfl
  | cons x xs ih =>
    intro h
    rw [List.mem_cons, not_or] at h
    unfold splitOnChar
    rw [if_neg (fun he => h.1 he.symm), ih h.2]

/-- Splitting strips the first separator after a separator-free
chunk. -/
theorem splitOnChar_append (sep : Char) :
    ∀ (xs ys : List Char), sep ∉ xs →
      splitOnChar sep (xs ++ sep :: ys) = xs :: splitOnChar sep ys := by
  intro xs
  induction xs with
  | nil =>
    intro ys _
    show splitOnChar sep (sep :: ys) = [] :: splitOnChar sep ys
    conv_lhs => rw [splitOnChar]
    rw [if_pos rfl]
  | cons x xs ih =>
    intro ys h
    rw [List.mem_cons, not_or] at h
    show splitOnChar sep (x :: (xs ++ sep :: ys)) = (x :: xs) :: splitOnChar sep ys
    conv_lhs => rw [splitOnChar]
    rw [if_neg (fun he => h.1 he.symm), ih ys h.2]

theorem parse_octet_natChars (v : Fin 256) :
    parseOctet (natChars v.val) = some v := by
  unfold parseOctet
  rw [parse_natChars]
  dsimp only
  rw [dif_pos v.isLt]

theorem parse_port_natChars (v : Fin 65536) :
    parsePort (natChars v.val) = some v := by
  unfold parsePort
  rw [parse_natChars]
  dsimp only
  rw [dif_pos v.isLt]

/-- Parsing inverts `Display` for socket addresses. -/
theorem parse_display_addr (x : SockAddr) :
    parseSockAddrChars x.displayChars = some x := by
  obtain ⟨a, b, c, d, p⟩ := x
  have hnd : ∀ n : Nat, '.' ∉ natChars n := fun n =>
    not_digit_not_mem '.' (by decide) n
  have hnc : ∀ n : Nat, ':' ∉ natChars n := fun n =>
    not_digit_not_mem ':' (by decide) n
  have hshape : SockAddr.displayChars ⟨a, b, c, d, p⟩
      = (natChars a.val ++ ('.' :: (natChars b.val ++ ('.' :: (natChars c.val
          ++ ('.' :: natChars d.val)))))) ++ (':' :: natChars p.val) := by
    simp [SockAddr.displayChars, List.append_assoc]
  have hipfree : ':' ∉ natChars a.val ++ ('.' :: (natChars b.val
      ++ ('.' :: (natChars c.val ++ ('.' :: natChars d.val))))) := by
    intro hm
    rcases List.mem_append.mp hm with h | hm1
    · exact hnc _ h
    rcases List.mem_cons.mp hm1 with h | hm2
    · exact absurd h (by decide)
    rcases List.mem_append.mp hm2 with h | hm3
    · exact hnc _ h
    rcases List.mem_cons.mp hm3 with h | hm4
    · exact absurd h (by decide)
    rcases List.mem_append.mp hm4 with h | hm5
    · exact hnc _ h
    rcases List.mem_cons.mp hm5 with h | hm6
    · exact absurd h (by decide)
    exact hnc _ hm6
  unfold parseSockAddrChars
  rw [hshape, splitOnChar_append ':' _ _ hipfree,
    splitOnChar_not_mem ':' _ (hnc _)]
  dsimp only
  rw [splitOnChar_append '.' _ _ (hnd _), splitOnChar_append '.' _ _ (hnd _),
    splitOnChar_append '.' _ _ (hnd _), splitOnChar_not_mem '.' _ (hnd _)]
  dsimp only
  rw [parse_octet_natChars a, parse_octet_natChars b, parse_octet_natChars c,
    parse_octet_natChars d, parse_port_natChars p]

theorem ebind_ok {ε α β : Type} (a : α) (f : α → Except ε β) :
    (Except.ok a >>= f) = f a := rfl

/-- Deserializing inverts serializing for one address. -/
theorem decode_display_addr (x : SockAddr) :
    decodeSockAddr (Json.str x.display) = Except.ok x := by
  unfold decodeSockAddr SockAddr.parse SockAddr.display
  dsimp only
  rw [parse_display_addr]

/-- Deserializing inverts serializing for a destination list. -/
theorem decode_addr_list (ds : List SockAddr) :
    decodeSockAddrList (ds.map fun d => Json.str d.display) = Except.ok ds := by
  induction ds with
  | nil => rfl
  | cons d ds ih =>
    rw [List.map_cons]
    show decodeSockAddrList
        (Json.str d.display :: ds.map fun d => Json.str d.display) = _
    rw [decodeSockAddrList, decode_display_addr, ebind_ok, ih, ebind_ok]

/-- C9: serializing any Rule to its JSON wire form and deserializing
the result yields the same Rule; the wire object uses the lowercase
field names `protocol`, `mode`, `source`, `destinations` and the
kebab-case enum strings (fixed in the definition of `Rule.to_json`). -/
theorem rule_json_roundtrip (r : Rule) :
    Rule.from_json r.to_json = Except.ok r
      ∧ r.to_json.keys = ["protocol", "mode", "source", "destinations"] := by
  refine ⟨?_, rfl⟩
  obtain ⟨p, m, src, ds⟩ := r
  cases p <;> cases m <;>
    simp [Rule.to_json, Rule.from_json, reqField, getField, Protocol.wire,
      Mode.wire, decodeProtocol, decodeMode, ebind_ok, decode_display_addr,
      decode_addr_list]

/-- C8: the spec says decoding a Rule whose JSON lacks the `mode`
field succeeds with a protocol-dependent default (Broadcast for UDP).
The derived deserializer has no default: the same object without
`mode` is rejected with a missing-field error, while with `mode`
present it decodes fine. -/
theorem from_json_missing_mode_errors :
    Rule.from_json (Json.obj
        [("protocol", Json.str "udp"),
         ("source", Json.str "127.0.0.1:8080"),
         ("destinations", Json.arr [Json.str "127.0.0.1:8081"])])
      = Except.error "missing field mode"
    ∧ Rule.from_json (Json.obj
        [("protocol", Json.str "udp"),
         ("mode", Json.str "broadcast"),
         ("source", Json.str "127.0.0.1:8080"),
         ("destinations", Json.arr [Json.str "127.0.0.1:8081"])])
      = Except.ok ⟨Protocol.Udp, Mode.Broadcast, addrA, [addrB]⟩ :=
  ⟨rfl, rfl⟩

end Router
